import Mathlib

/-! ## Definitions -/

/-- Little-endian byte encoding of `n` on `w` octets, as the C++
serializer writes fixed-width integers (`uint16_t`, `uint32_t`). -/
def leBytes : Nat → Nat → List Nat
  | 0, _ => []
  | w + 1, n => n % 256 :: leBytes w (n / 256)

/-- Little-endian read of a `w`-octet integer from the stream;
`none` models the stream throwing on insufficient data. -/
def readLE : Nat → List Nat → Option (Nat × List Nat)
  | 0, s => some (0, s)
  | w + 1, s =>
    match s with
    | [] => none
    | b :: r => (readLE w r).map fun p => (b % 256 + p.1 * 256, p.2)

/-- The high-bit-marked leading bytes of the bitcoin `VARINT`
encoding: every byte emitted here has bit 7 set. -/
def writeVarIntHB (n : Nat) : List Nat :=
  if n ≤ 0x7f then [n + 128]
  else writeVarIntHB (n / 128 - 1) ++ [n % 128 + 128]
termination_by n
decreasing_by
  have : n / 128 < n := Nat.div_lt_self (by omega) (by norm_num)
  omega

/-- Bitcoin `VARINT` encoding (base-128, big-endian groups, the
"+1 per continuation" variant), as `WriteVarInt` emits it for the
container's element count. -/
def writeVarInt (n : Nat) : List Nat :=
  if n ≤ 0x7f then [n % 128]
  else writeVarIntHB (n / 128 - 1) ++ [n % 128]

/-- Bitcoin `ReadVarInt` loop: `n = (n << 7) | (b & 0x7f)`, plus one
after every continuation byte. -/
def readVarIntAux : Nat → List Nat → Option (Nat × List Nat)
  | _, [] => none
  | acc, b :: rest =>
    let byte := b % 256
    let n := acc * 128 + byte % 128
    if 128 ≤ byte then readVarIntAux (n + 1) rest else some (n, rest)

/-- Bitcoin `ReadVarInt` from the head of the stream. -/
def readVarInt (s : List Nat) : Option (Nat × List Nat) :=
  readVarIntAux 0 s

/-- Tag value `CHAINOBJ_INVALID` of `CHAIN_OBJECT_TYPES`. -/
def CHAINOBJ_INVALID : Nat := 0

/-- Tag value `CHAINOBJ_HEADER`: serialized full block header w/proof. -/
def CHAINOBJ_HEADER : Nat := 1

/-- Tag value `CHAINOBJ_HEADER_REF`: header with only non-canonical data. -/
def CHAINOBJ_HEADER_REF : Nat := 2

/-- Tag value `CHAINOBJ_TRANSACTION_PROOF`. -/
def CHAINOBJ_TRANSACTION_PROOF : Nat := 3

/-- Tag value `CHAINOBJ_PROOF_ROOT`. -/
def CHAINOBJ_PROOF_ROOT : Nat := 4

/-- Tag value `CHAINOBJ_PRIORBLOCKS`. -/
def CHAINOBJ_PRIORBLOCKS : Nat := 5

/-- Tag value `CHAINOBJ_RESERVETRANSFER`. -/
def CHAINOBJ_RESERVETRANSFER : Nat := 6

/-- Tag value `CHAINOBJ_COMPOSITEOBJECT`. -/
def CHAINOBJ_COMPOSITEOBJECT : Nat := 7

/-- Tag value `CHAINOBJ_CROSSCHAINPROOF`. -/
def CHAINOBJ_CROSSCHAINPROOF : Nat := 8

/-- In-memory chain object: one constructor per static C++ type
`CChainObject<T>`, each carrying the runtime `objectType` field, which
the C++ code sets independently of the static type.  The payload types
(header-and-proof, tx proof, `uint256` proof root, header reference,
prior-blocks commitment, reserve transfer) are defined outside this
repository slice, so they appear as type parameters; a nested
container is carried structurally as its version and object list. -/
inductive ChainObj (BHP PTP U256 BHPr PBC RTr : Type) : Type where
  | header (objectType : Nat) (obj : BHP)
  | txProof (objectType : Nat) (obj : PTP)
  | proofRoot (objectType : Nat) (obj : U256)
  | headerRef (objectType : Nat) (obj : BHPr)
  | priorBlocks (objectType : Nat) (obj : PBC)
  | reserveTransfer (objectType : Nat) (obj : RTr)
  | containerObj (objectType : Nat) (version : Nat)
      (objs : List (ChainObj BHP PTP U256 BHPr PBC RTr))

/-- Encoder/decoder pair for each of the six externally defined
payload types.  A decoder returns the decoded value and the unconsumed
remainder of the stream; `none` models a serialization exception. -/
structure ChainObjCodecs (BHP PTP U256 BHPr PBC RTr : Type) where
  encHeader : BHP → List Nat
  decHeader : List Nat → Option (BHP × List Nat)
  encTxProof : PTP → List Nat
  decTxProof : List Nat → Option (PTP × List Nat)
  encProofRoot : U256 → List Nat
  decProofRoot : List Nat → Option (U256 × List Nat)
  encHeaderRef : BHPr → List Nat
  decHeaderRef : List Nat → Option (BHPr × List Nat)
  encPriorBlocks : PBC → List Nat
  decPriorBlocks : List Nat → Option (PBC × List Nat)
  encReserveTransfer : RTr → List Nat
  decReserveTransfer : List Nat → Option (RTr × List Nat)

variable {BHP PTP U256 BHPr PBC RTr : Type}

/-- Each payload codec decodes exactly what it encoded and leaves the
rest of the stream untouched. -/
def CodecsFaithful (C : ChainObjCodecs BHP PTP U256 BHPr PBC RTr) : Prop :=
  (∀ x r, C.decHeader (C.encHeader x ++ r) = some (x, r)) ∧
  (∀ x r, C.decTxProof (C.encTxProof x ++ r) = some (x, r)) ∧
  (∀ x r, C.decProofRoot (C.encProofRoot x ++ r) = some (x, r)) ∧
  (∀ x r, C.decHeaderRef (C.encHeaderRef x ++ r) = some (x, r)) ∧
  (∀ x r, C.decPriorBlocks (C.encPriorBlocks x ++ r) = some (x, r)) ∧
  (∀ x r, C.decReserveTransfer (C.encReserveTransfer x ++ r) = some (x, r))

/-- Tags the serializer/deserializer switches actually handle. -/
def isKnownTag (t : Nat) : Bool := decide (1 ≤ t ∧ t ≤ 8)

mutual

/-- `DehydrateChainObject`: switch on the runtime `objectType`, cast
the object to the static type that tag promises and write tag plus
payload.  `some bytes` is a successful write; `some []` models the
unmatched-tag default (the C++ function returns `false` having written
nothing, and the container write path ignores that result); `none`
models the undefined reinterpretation of an object whose runtime tag
names a different static type than it actually has. -/
def dehydrateChainObject (C : ChainObjCodecs BHP PTP U256 BHPr PBC RTr) :
    ChainObj BHP PTP U256 BHPr PBC RTr → Option (List Nat)
  | .header t x =>
    if t = CHAINOBJ_HEADER then some (leBytes 2 t ++ C.encHeader x)
    else if isKnownTag t then none else some []
  | .txProof t x =>
    if t = CHAINOBJ_TRANSACTION_PROOF then some (leBytes 2 t ++ C.encTxProof x)
    else if isKnownTag t then none else some []
  | .proofRoot t x =>
    if t = CHAINOBJ_PROOF_ROOT then some (leBytes 2 t ++ C.encProofRoot x)
    else if isKnownTag t then none else some []
  | .headerRef t x =>
    if t = CHAINOBJ_HEADER_REF then some (leBytes 2 t ++ C.encHeaderRef x)
    else if isKnownTag t then none else some []
  | .priorBlocks t x =>
    if t = CHAINOBJ_PRIORBLOCKS then some (leBytes 2 t ++ C.encPriorBlocks x)
    else if isKnownTag t then none else some []
  | .reserveTransfer t x =>
    if t = CHAINOBJ_RESERVETRANSFER then some (leBytes 2 t ++ C.encReserveTransfer x)
    else if isKnownTag t then none else some []
  | .containerObj t v objs =>
    if t = CHAINOBJ_CROSSCHAINPROOF ∨ t = CHAINOBJ_COMPOSITEOBJECT then
      (serializeChainObjects C objs).map fun body =>
        leBytes 2 t ++ (leBytes 4 v ++ (writeVarInt objs.length ++ body))
    else if isKnownTag t then none else some []
termination_by o => sizeOf o

/-- Element loop of the `CCrossChainProof::SerializationOp` write path:
every object written via `DehydrateChainObject`. -/
def serializeChainObjects (C : ChainObjCodecs BHP PTP U256 BHPr PBC RTr) :
    List (ChainObj BHP PTP U256 BHPr PBC RTr) → Option (List Nat)
  | [] => some []
  | o :: rest =>
    match dehydrateChainObject C o, serializeChainObjects C rest with
    | some b, some bs => some (b ++ bs)
    | _, _ => none
termination_by l => sizeOf l

end

/-- Write path of `CCrossChainProof::SerializationOp`: version
(`uint32_t`), element count (`VARINT` over `int32_t proofSize`), then
each object through `DehydrateChainObject`. -/
def serializeCCP (C : ChainObjCodecs BHP PTP U256 BHPr PBC RTr) (version : Nat)
    (objs : List (ChainObj BHP PTP U256 BHPr PBC RTr)) : Option (List Nat) :=
  (serializeChainObjects C objs).map fun body =>
    leBytes 4 version ++ (writeVarInt objs.length ++ body)

/-- `CCompositeChainObject::SerializationOp`, which forwards to the
`CCrossChainProof` write path via `READWRITE(*(CCrossChainProof *)this)`. -/
def serializeCComposite (C : ChainObjCodecs BHP PTP U256 BHPr PBC RTr)
    (version : Nat) (objs : List (ChainObj BHP PTP U256 BHPr PBC RTr)) :
    Option (List Nat) :=
  serializeCCP C version objs

/-- Loop bound taken by the read path from the decoded `VARINT`: the
value lands in an `int32_t`, so it is truncated to 32 bits and a value
with the sign bit set is negative, making the loop body run zero
times. -/
def toCount (n : Nat) : Nat :=
  if n % 2 ^ 32 < 2 ^ 31 then n % 2 ^ 32 else 0

/-- Element-read loop of the `CCrossChainProof::SerializationOp` read
path, for a given per-element reader: returns the objects pushed so
far, the remaining stream, and the `error` flag (a caught element-level
serialization exception, which also stops the loop). -/
def readObjsF {Obj : Type} (elem : List Nat → Option (Option Obj × List Nat)) :
    Nat → List Nat → List Obj × List Nat × Bool
  | 0, s => ([], s, false)
  | k + 1, s =>
    match elem s with
    | none => ([], s, true)
    | some (none, s') => readObjsF elem k s'
    | some (some o, s') =>
      let r := readObjsF elem k s'
      (o :: r.1, r.2)

/-- One iteration of the read loop: read the 2-byte `objType`, then
the switch over known tags.  For an unknown tag `pobj` stays null, so
nothing is stored and decoding continues right after the tag bytes.
`dcp` reads a nested container (`CHAINOBJ_CROSSCHAINPROOF` and
`CHAINOBJ_COMPOSITEOBJECT` both read a `CCrossChainProof`). -/
def readElemF (C : ChainObjCodecs BHP PTP U256 BHPr PBC RTr)
    (dcp : List Nat →
      Option ((Nat × List (ChainObj BHP PTP U256 BHPr PBC RTr)) × List Nat))
    (s : List Nat) :
    Option (Option (ChainObj BHP PTP U256 BHPr PBC RTr) × List Nat) :=
  match readLE 2 s with
  | none => none
  | some (t, s1) =>
    if t = CHAINOBJ_HEADER then
      (C.decHeader s1).map fun p => (some (.header t p.1), p.2)
    else if t = CHAINOBJ_TRANSACTION_PROOF then
      (C.decTxProof s1).map fun p => (some (.txProof t p.1), p.2)
    else if t = CHAINOBJ_PROOF_ROOT then
      (C.decProofRoot s1).map fun p => (some (.proofRoot t p.1), p.2)
    else if t = CHAINOBJ_HEADER_REF then
      (C.decHeaderRef s1).map fun p => (some (.headerRef t p.1), p.2)
    else if t = CHAINOBJ_PRIORBLOCKS then
      (C.decPriorBlocks s1).map fun p => (some (.priorBlocks t p.1), p.2)
    else if t = CHAINOBJ_RESERVETRANSFER then
      (C.decReserveTransfer s1).map fun p => (some (.reserveTransfer t p.1), p.2)
    else if t = CHAINOBJ_CROSSCHAINPROOF then
      (dcp s1).map fun p => (some (.containerObj t p.1.1 p.1.2), p.2)
    else if t = CHAINOBJ_COMPOSITEOBJECT then
      (dcp s1).map fun p => (some (.containerObj t p.1.1 p.1.2), p.2)
    else some (none, s1)

/-- Read path of `CCrossChainProof::SerializationOp`.  The version and
the `VARINT` count are read outside the element loop's try/catch, so a
failure there (`none`) escapes to the caller.  An element failure sets
`error`, which makes the function discard every object decoded so far
(`DeleteOpRetObjects`), log, and still return normally.  `fuel` bounds
the container nesting depth; each nested container read consumes one
unit. -/
def deserCCP (C : ChainObjCodecs BHP PTP U256 BHPr PBC RTr) :
    Nat → List Nat →
      Option ((Nat × List (ChainObj BHP PTP U256 BHPr PBC RTr)) × List Nat)
  | 0, _ => none
  | fuel + 1, s =>
    match readLE 4 s with
    | none => none
    | some (version, s1) =>
      match readVarInt s1 with
      | none => none
      | some (n, s2) =>
        let r := readObjsF (readElemF C (deserCCP C fuel)) (toCount n) s2
        if r.2.2 then some ((version, []), r.2.1)
        else some ((version, r.1), r.2.1)

mutual

/-- Container nesting depth of one chain object. -/
def objDepth : ChainObj BHP PTP U256 BHPr PBC RTr → Nat
  | .containerObj _ _ objs => listDepth objs + 1
  | _ => 0
termination_by o => sizeOf o

/-- Container nesting depth of a list of chain objects. -/
def listDepth : List (ChainObj BHP PTP U256 BHPr PBC RTr) → Nat
  | [] => 0
  | o :: rest => max (objDepth o) (listDepth rest)
termination_by l => sizeOf l

end

mutual

/-- Well-formed chain object: the runtime tag is the one whose decode
branch reads exactly this payload's static type, nested versions fit
`uint32_t` and nested element counts fit a non-negative `int32_t`. -/
def wfObj : ChainObj BHP PTP U256 BHPr PBC RTr → Bool
  | .header t _ => t == CHAINOBJ_HEADER
  | .txProof t _ => t == CHAINOBJ_TRANSACTION_PROOF
  | .proofRoot t _ => t == CHAINOBJ_PROOF_ROOT
  | .headerRef t _ => t == CHAINOBJ_HEADER_REF
  | .priorBlocks t _ => t == CHAINOBJ_PRIORBLOCKS
  | .reserveTransfer t _ => t == CHAINOBJ_RESERVETRANSFER
  | .containerObj t v objs =>
    (t == CHAINOBJ_CROSSCHAINPROOF || t == CHAINOBJ_COMPOSITEOBJECT) &&
      (decide (v < 2 ^ 32) && (decide (objs.length < 2 ^ 31) && wfObjList objs))
termination_by o => sizeOf o

/-- Well-formedness of every object in a list. -/
def wfObjList : List (ChainObj BHP PTP U256 BHPr PBC RTr) → Bool
  | [] => true
  | o :: rest => wfObj o && wfObjList rest
termination_by l => sizeOf l

end

/-- Well-formed container: version fits `uint32_t`, count fits a
non-negative `int32_t`, and every element is well-formed. -/
def wfCCP (version : Nat) (objs : List (ChainObj BHP PTP U256 BHPr PBC RTr)) : Bool :=
  decide (version < 2 ^ 32) && (decide (objs.length < 2 ^ 31) && wfObjList objs)

/-- Trivial instantiation of the six payload codecs (every payload
type a singleton with the empty encoding), used to exercise the
container codec on concrete byte streams. -/
def unitCodecs : ChainObjCodecs Unit Unit Unit Unit Unit Unit where
  encHeader _ := []
  decHeader s := some ((), s)
  encTxProof _ := []
  decTxProof s := some ((), s)
  encProofRoot _ := []
  decProofRoot s := some ((), s)
  encHeaderRef _ := []
  decHeaderRef s := some ((), s)
  encPriorBlocks _ := []
  decPriorBlocks s := some ((), s)
  encReserveTransfer _ := []
  decReserveTransfer s := some ((), s)

/-- Version constant `VERSION_INVALID` of `CCrossChainProof`. -/
def VERSION_INVALID : Nat := 0

/-- Version constant `VERSION_FIRST` of `CCrossChainProof`. -/
def VERSION_FIRST : Nat := 1

/-- Version constant `VERSION_CURRENT` of `CCrossChainProof`. -/
def VERSION_CURRENT : Nat := 1

/-- Version constant `VERSION_LAST` of `CCrossChainProof`. -/
def VERSION_LAST : Nat := 1

/-- `CCrossChainProof::IsValid()` as written in the source:
`version >= VERSION_FIRST || version <= VERSION_LAST` on the
unsigned `version` member. -/
def CCrossChainProofIsValid (version : Nat) : Bool :=
  decide (VERSION_FIRST ≤ version) || decide (version ≤ VERSION_LAST)

/-- The `CCrossChainProof` container: version plus the owned, ordered
sequence of chain objects. -/
structure CCrossChainProof (BHP PTP U256 BHPr PBC RTr : Type) where
  version : Nat
  chainObjects : List (ChainObj BHP PTP U256 BHPr PBC RTr)

/-- `operator<<(const CPartialTransactionProof &)`: append with tag
`CHAINOBJ_TRANSACTION_PROOF`. -/
def appendTxProof (p : CCrossChainProof BHP PTP U256 BHPr PBC RTr) (x : PTP) :
    CCrossChainProof BHP PTP U256 BHPr PBC RTr :=
  { p with chainObjects :=
      p.chainObjects ++ [ChainObj.txProof CHAINOBJ_TRANSACTION_PROOF x] }

/-- `operator<<(const CBlockHeaderAndProof &)`: the source constructs
`CChainObject<CBlockHeaderAndProof>(CHAINOBJ_HEADER_REF, ...)`, i.e.
it stores tag `CHAINOBJ_HEADER_REF` on a header-and-proof payload. -/
def appendBlockHeaderAndProof (p : CCrossChainProof BHP PTP U256 BHPr PBC RTr)
    (x : BHP) : CCrossChainProof BHP PTP U256 BHPr PBC RTr :=
  { p with chainObjects :=
      p.chainObjects ++ [ChainObj.header CHAINOBJ_HEADER_REF x] }

/-- `operator<<(const CBlockHeaderProof &)`: the source constructs
`CChainObject<CBlockHeaderProof>(CHAINOBJ_HEADER, ...)`, i.e. it
stores tag `CHAINOBJ_HEADER` on a bare header-proof payload. -/
def appendBlockHeaderProof (p : CCrossChainProof BHP PTP U256 BHPr PBC RTr)
    (y : BHPr) : CCrossChainProof BHP PTP U256 BHPr PBC RTr :=
  { p with chainObjects :=
      p.chainObjects ++ [ChainObj.headerRef CHAINOBJ_HEADER y] }

/-- `operator<<(const CPriorBlocksCommitment &)`: append with tag
`CHAINOBJ_PRIORBLOCKS`. -/
def appendPriorBlocks (p : CCrossChainProof BHP PTP U256 BHPr PBC RTr) (x : PBC) :
    CCrossChainProof BHP PTP U256 BHPr PBC RTr :=
  { p with chainObjects :=
      p.chainObjects ++ [ChainObj.priorBlocks CHAINOBJ_PRIORBLOCKS x] }

/-- `operator<<(const uint256 &)`: append with tag
`CHAINOBJ_PROOF_ROOT`. -/
def appendProofRoot (p : CCrossChainProof BHP PTP U256 BHPr PBC RTr) (x : U256) :
    CCrossChainProof BHP PTP U256 BHPr PBC RTr :=
  { p with chainObjects :=
      p.chainObjects ++ [ChainObj.proofRoot CHAINOBJ_PROOF_ROOT x] }

/-- `operator<<(const CReserveTransfer &)`: append with tag
`CHAINOBJ_RESERVETRANSFER`. -/
def appendReserveTransfer (p : CCrossChainProof BHP PTP U256 BHPr PBC RTr)
    (x : RTr) : CCrossChainProof BHP PTP U256 BHPr PBC RTr :=
  { p with chainObjects :=
      p.chainObjects ++ [ChainObj.reserveTransfer CHAINOBJ_RESERVETRANSFER x] }

/-- `operator<<(const CCrossChainProof &)`: append a nested container
with tag `CHAINOBJ_CROSSCHAINPROOF`. -/
def appendCrossChainProof (p q : CCrossChainProof BHP PTP U256 BHPr PBC RTr) :
    CCrossChainProof BHP PTP U256 BHPr PBC RTr :=
  { p with chainObjects := p.chainObjects ++
      [ChainObj.containerObj CHAINOBJ_CROSSCHAINPROOF q.version q.chainObjects] }

/-- `CCompositeChainObject::operator<<(const CCompositeChainObject &)`:
append a nested container with tag `CHAINOBJ_COMPOSITEOBJECT`. -/
def appendCompositeObject (p q : CCrossChainProof BHP PTP U256 BHPr PBC RTr) :
    CCrossChainProof BHP PTP U256 BHPr PBC RTr :=
  { p with chainObjects := p.chainObjects ++
      [ChainObj.containerObj CHAINOBJ_COMPOSITEOBJECT q.version q.chainObjects] }

/-- The 128-bit `arNonce` built by both `SetPOSEntropy` and
`CheckPOSEntropy`: low 32 bits of the current nonce, bitwise-or'ed
with the low 96 bits of the entropy hash shifted left by 32.  The two
operands occupy disjoint bit ranges, so the `|` is addition.  `H1`
abstracts the `CVerusHashWriter` hash of `pastHash`, `txid`,
`voutNum`, whose implementation is outside this slice. -/
def posEntropyArNonce (H1 : Nat → Nat → Nat → Nat)
    (nonce pastHash txid voutNum : Nat) : Nat :=
  nonce % 2 ^ 32 + H1 pastHash txid voutNum % 2 ^ 96 * 2 ^ 32

/-- `CPOSNonce::SetPOSEntropy`: the new nonce is the low 128 bits of a
second hash (`H2`) of `arNonce`, shifted left 128 (the shift is taken
mod 2^256 by `arith_uint256`, keeping `H2`'s low 128 bits), or'ed with
`arNonce` (again disjoint bit ranges, so `|` is addition). -/
def setPOSEntropy (H1 : Nat → Nat → Nat → Nat) (H2 : Nat → Nat)
    (nonce pastHash txid voutNum : Nat) : Nat :=
  H2 (posEntropyArNonce H1 nonce pastHash txid voutNum) % 2 ^ 128 * 2 ^ 128 +
    posEntropyArNonce H1 nonce pastHash txid voutNum

/-- `CPOSNonce::CheckPOSEntropy`: recompute `arNonce` from the current
nonce and the same entropy inputs, and compare the nonce against the
reconstruction. -/
def checkPOSEntropy (H1 : Nat → Nat → Nat → Nat) (H2 : Nat → Nat)
    (nonce pastHash txid voutNum : Nat) : Bool :=
  nonce ==
    H2 (posEntropyArNonce H1 nonce pastHash txid voutNum) % 2 ^ 128 * 2 ^ 128 +
      posEntropyArNonce H1 nonce pastHash txid voutNum

/-- `COpRetProof`: index into the opret objects plus the parallel
`types` and `hashes` vectors; the default constructor yields index 0
and empty vectors. -/
structure COpRetProof where
  orIndex : Nat
  types : List Nat
  hashes : List Nat

/-- Default-constructed `COpRetProof`. -/
def COpRetProofDefault : COpRetProof := ⟨0, [], []⟩

/-- `COpRetProof::AddObject`: push the type code onto `types` and the
object hash onto `hashes` (the templated overload pushes
`ObjTypeCode(co)` the same way). -/
def addObject (p : COpRetProof) (typeCode objHash : Nat) : COpRetProof :=
  { p with types := p.types ++ [typeCode], hashes := p.hashes ++ [objHash] }

/-- Copy construction / copy assignment of `CCrossChainProof`: the
source is serialized into a fresh stream and the copy deserialized
from those bytes (`s << operand; s >> *this`), never a field-wise
copy. -/
def copyCCP (C : ChainObjCodecs BHP PTP U256 BHPr PBC RTr) (fuel version : Nat)
    (objs : List (ChainObj BHP PTP U256 BHPr PBC RTr)) :
    Option (Nat × List (ChainObj BHP PTP U256 BHPr PBC RTr)) :=
  (serializeCCP C version objs).bind fun bytes =>
    (deserCCP C fuel bytes).map Prod.fst

/-- The merge-mined registry, reduced to its target index
`mergeMinedTargets` (a `std::map` keyed by `arith_uint256` target),
modelled as an association list of (target value, owning chain id)
pairs kept in the ascending-key order `std::map` iterates in. -/
structure CConnectedChains where
  mergeMinedTargets : List (Nat × Nat)

/-- Strictly ascending keys: the ordering invariant of `std::map`. -/
def sortedByTarget : List (Nat × Nat) → Bool
  | [] => true
  | [_] => true
  | a :: b :: r => decide (a.1 < b.1) && sortedByTarget (b :: r)

/-- `CConnectedChains::LowestTarget()`: the first key of the target
index when any chain is registered, else the zero sentinel
`arith_uint256(0)`. -/
def LowestTarget (cc : CConnectedChains) : Nat :=
  match cc.mergeMinedTargets with
  | [] => 0
  | p :: _ => p.1

/-- Modelled from the spec: `AddMergedBlock` (§4.3 `addChain`, defined
in `pbaas.cpp`, which is outside this slice) tracks the chain's
current target and inserts it into the target index; ordered-map
insertion keyed by target. -/
def targetIndexInsert (target chain : Nat) : List (Nat × Nat) → List (Nat × Nat)
  | [] => [(target, chain)]
  | p :: r =>
    if target < p.1 then (target, chain) :: p :: r
    else if target = p.1 then (target, chain) :: r
    else p :: targetIndexInsert target chain r

/-- Modelled from the spec: `RemoveMergedBlock` (§4.3 `removeChain`,
also outside this slice) removes the chain "from both the chain map
and target index". -/
def targetIndexErase (chain : Nat) (m : List (Nat × Nat)) : List (Nat × Nat) :=
  m.filter fun p => p.2 != chain

/-! ## Theorems -/

theorem leBytes_length (w n : Nat) : (leBytes w n).length = w := by
  induction w generalizing n with
  | zero => rfl
  | succ w ih => simp [leBytes, ih]

theorem readLE_leBytes (w n : Nat) (rest : List Nat) :
    readLE w (leBytes w n ++ rest) = some (n % 256 ^ w, rest) := by
  induction w generalizing n with
  | zero => simp [leBytes, readLE, Nat.mod_one]
  | succ w ih =>
    simp only [leBytes, readLE, List.cons_append, ih (n / 256), Option.map_some']
    rw [pow_succ', Nat.mod_mul]
    simp only [Option.some.injEq, Prod.mk.injEq, and_true]
    generalize n / 256 % 256 ^ w = X
    omega

theorem readVarIntAux_writeVarIntHB (n : Nat) :
    ∀ acc tail, readVarIntAux acc (writeVarIntHB n ++ tail) =
      readVarIntAux (acc * 128 ^ (writeVarIntHB n).length + n + 1) tail := by
  induction n using Nat.strong_induction_on with
  | _ n ih =>
    intro acc tail
    by_cases h : n ≤ 0x7f
    · rw [writeVarIntHB, if_pos h]
      have hb : (n + 128) % 256 = n + 128 := Nat.mod_eq_of_lt (by omega)
      have hm : (n + 128) % 128 = n := by omega
      simp only [List.length_cons, List.length_nil, List.cons_append, List.nil_append,
        readVarIntAux, hb, hm]
      rw [if_pos (by omega : (128:Nat) ≤ n + 128)]
      norm_num
    · rw [writeVarIntHB, if_neg h]
      have hlt : n / 128 - 1 < n := by
        have : n / 128 < n := Nat.div_lt_self (by omega) (by norm_num)
        omega
      rw [List.append_assoc, ih _ hlt, List.cons_append]
      have h128 : n % 128 < 128 := Nat.mod_lt _ (by norm_num)
      have hb : (n % 128 + 128) % 256 = n % 128 + 128 := Nat.mod_eq_of_lt (by omega)
      have hm : (n % 128 + 128) % 128 = n % 128 := by omega
      simp only [readVarIntAux, hb, hm]
      rw [if_pos (by omega : (128:Nat) ≤ n % 128 + 128)]
      simp only [List.length_append, List.length_cons, List.length_nil]
      congr 1
      have hdiv : 128 * (n / 128) + n % 128 = n := Nat.div_add_mod n 128
      have hpos : 1 ≤ n / 128 := Nat.one_le_div_iff (by norm_num) |>.mpr (by omega)
      rw [pow_succ, ← Nat.mul_assoc]
      generalize acc * 128 ^ (writeVarIntHB (n / 128 - 1)).length = A
      omega

theorem readVarInt_writeVarInt (n : Nat) (tail : List Nat) :
    readVarInt (writeVarInt n ++ tail) = some (n, tail) := by
  by_cases h : n ≤ 0x7f
  · rw [writeVarInt, if_pos h, readVarInt, List.cons_append]
    have hb : n % 128 = n := Nat.mod_eq_of_lt (by omega)
    simp only [readVarIntAux, hb, Nat.mod_eq_of_lt (show n < 256 by omega)]
    rw [if_neg (by omega)]
    simp
  · rw [writeVarInt, if_neg h, readVarInt, List.append_assoc,
      readVarIntAux_writeVarIntHB, List.cons_append]
    have h128 : n % 128 < 128 := Nat.mod_lt _ (by norm_num)
    have hb : n % 128 % 256 = n % 128 := Nat.mod_eq_of_lt (by omega)
    simp only [readVarIntAux, hb]
    rw [if_neg (by omega)]
    have hdiv : 128 * (n / 128) + n % 128 = n := Nat.div_add_mod n 128
    have hpos : 1 ≤ n / 128 := Nat.one_le_div_iff (by norm_num) |>.mpr (by omega)
    simp only [Option.some.injEq, Prod.mk.injEq, and_true, Nat.zero_mul, Nat.zero_add,
      List.nil_append, eq_self_iff_true]
    omega

theorem readLE_leBytes_small (w t : Nat) (h : t < 256 ^ w) (rest : List Nat) :
    readLE w (leBytes w t ++ rest) = some (t, rest) := by
  rw [readLE_leBytes, Nat.mod_eq_of_lt h]

theorem toCount_small (n : Nat) (h : n < 2 ^ 31) : toCount n = n := by
  unfold toCount
  rw [Nat.mod_eq_of_lt (by omega : n < 2 ^ 32), if_pos h]

/-- Round-trip of the container read path against the write path: for
faithful payload codecs, a well-formed container decodes from its own
encoding back to structural equality, for any fuel exceeding the
nesting depth and any trailing stream. -/
theorem deserCCP_serializeCCP (C : ChainObjCodecs BHP PTP U256 BHPr PBC RTr)
    (hC : CodecsFaithful C) :
    ∀ fuel version objs bytes rest,
      wfCCP version objs = true →
      serializeCCP C version objs = some bytes →
      listDepth objs < fuel →
      deserCCP C fuel (bytes ++ rest) = some ((version, objs), rest) := by
  obtain ⟨hH, hT, hR, hHR, hPB, hRT⟩ := hC
  intro fuel
  induction fuel with
  | zero => intro v objs bytes rest _ _ h; omega
  | succ fuel ih =>
    have helem : ∀ (o : ChainObj BHP PTP U256 BHPr PBC RTr) b rest',
        wfObj o = true → dehydrateChainObject C o = some b → objDepth o ≤ fuel →
        readElemF C (deserCCP C fuel) (b ++ rest') = some (some o, rest') := by
      intro o b rest' hwf hser hd
      cases o with
      | header t x =>
        have ht : t = CHAINOBJ_HEADER := by simpa [wfObj] using hwf
        subst ht
        rw [dehydrateChainObject, if_pos rfl, Option.some.injEq] at hser
        subst hser
        rw [List.append_assoc, readElemF,
          readLE_leBytes_small 2 CHAINOBJ_HEADER (by norm_num [CHAINOBJ_HEADER]) _]
        simp [hH]
      | txProof t x =>
        have ht : t = CHAINOBJ_TRANSACTION_PROOF := by simpa [wfObj] using hwf
        subst ht
        rw [dehydrateChainObject, if_pos rfl, Option.some.injEq] at hser
        subst hser
        rw [List.append_assoc, readElemF,
          readLE_leBytes_small 2 CHAINOBJ_TRANSACTION_PROOF
            (by norm_num [CHAINOBJ_TRANSACTION_PROOF]) _]
        simp [hT, CHAINOBJ_TRANSACTION_PROOF, CHAINOBJ_HEADER]
      | proofRoot t x =>
        have ht : t = CHAINOBJ_PROOF_ROOT := by simpa [wfObj] using hwf
        subst ht
        rw [dehydrateChainObject, if_pos rfl, Option.some.injEq] at hser
        subst hser
        rw [List.append_assoc, readElemF,
          readLE_leBytes_small 2 CHAINOBJ_PROOF_ROOT (by norm_num [CHAINOBJ_PROOF_ROOT]) _]
        simp [hR, CHAINOBJ_PROOF_ROOT, CHAINOBJ_HEADER, CHAINOBJ_TRANSACTION_PROOF]
      | headerRef t x =>
        have ht : t = CHAINOBJ_HEADER_REF := by simpa [wfObj] using hwf
        subst ht
        rw [dehydrateChainObject, if_pos rfl, Option.some.injEq] at hser
        subst hser
        rw [List.append_assoc, readElemF,
          readLE_leBytes_small 2 CHAINOBJ_HEADER_REF (by norm_num [CHAINOBJ_HEADER_REF]) _]
        simp [hHR, CHAINOBJ_HEADER_REF, CHAINOBJ_HEADER, CHAINOBJ_TRANSACTION_PROOF,
          CHAINOBJ_PROOF_ROOT]
      | priorBlocks t x =>
        have ht : t = CHAINOBJ_PRIORBLOCKS := by simpa [wfObj] using hwf
        subst ht
        rw [dehydrateChainObject, if_pos rfl, Option.some.injEq] at hser
        subst hser
        rw [List.append_assoc, readElemF,
          readLE_leBytes_small 2 CHAINOBJ_PRIORBLOCKS (by norm_num [CHAINOBJ_PRIORBLOCKS]) _]
        simp [hPB, CHAINOBJ_PRIORBLOCKS, CHAINOBJ_HEADER, CHAINOBJ_TRANSACTION_PROOF,
          CHAINOBJ_PROOF_ROOT, CHAINOBJ_HEADER_REF]
      | reserveTransfer t x =>
        have ht : t = CHAINOBJ_RESERVETRANSFER := by simpa [wfObj] using hwf
        subst ht
        rw [dehydrateChainObject, if_pos rfl, Option.some.injEq] at hser
        subst hser
        rw [List.append_assoc, readElemF,
          readLE_leBytes_small 2 CHAINOBJ_RESERVETRANSFER
            (by norm_num [CHAINOBJ_RESERVETRANSFER]) _]
        simp [hRT, CHAINOBJ_RESERVETRANSFER, CHAINOBJ_HEADER, CHAINOBJ_TRANSACTION_PROOF,
          CHAINOBJ_PROOF_ROOT, CHAINOBJ_HEADER_REF, CHAINOBJ_PRIORBLOCKS]
      | containerObj t v' objs' =>
        simp only [wfObj, Bool.and_eq_true, Bool.or_eq_true, beq_iff_eq,
          decide_eq_true_eq] at hwf
        obtain ⟨ht, hv', hlen, hwl⟩ := hwf
        rw [dehydrateChainObject, if_pos ht] at hser
        cases hbody : serializeChainObjects C objs' with
        | none => rw [hbody] at hser; simp at hser
        | some body =>
          rw [hbody, Option.map_some', Option.some.injEq] at hser
          subst hser
          have hdepth : listDepth objs' < fuel := by
            have hobj : objDepth (ChainObj.containerObj t v' objs') =
                listDepth objs' + 1 := by
              simp [objDepth]
            omega
          have hnested :
              deserCCP C fuel
                  (leBytes 4 v' ++ (writeVarInt objs'.length ++ (body ++ rest'))) =
                some ((v', objs'), rest') := by
            have := ih v' objs' (leBytes 4 v' ++ (writeVarInt objs'.length ++ body)) rest'
              (by
                simp only [wfCCP, Bool.and_eq_true, decide_eq_true_eq]
                exact ⟨by omega, by omega, hwl⟩)
              (by rw [serializeCCP, hbody, Option.map_some'])
              hdepth
            simpa [List.append_assoc] using this
          have ht16 : t < 256 ^ 2 := by
            rcases ht with h8 | h7
            · subst h8; norm_num [CHAINOBJ_CROSSCHAINPROOF]
            · subst h7; norm_num [CHAINOBJ_COMPOSITEOBJECT]
          rw [List.append_assoc, List.append_assoc, readElemF,
            readLE_leBytes_small 2 t ht16 _]
          rcases ht with h8 | h7
          · subst h8
            simp [hnested, CHAINOBJ_CROSSCHAINPROOF, CHAINOBJ_HEADER,
              CHAINOBJ_TRANSACTION_PROOF, CHAINOBJ_PROOF_ROOT, CHAINOBJ_HEADER_REF,
              CHAINOBJ_PRIORBLOCKS, CHAINOBJ_RESERVETRANSFER]
          · subst h7
            simp [hnested, CHAINOBJ_COMPOSITEOBJECT, CHAINOBJ_HEADER,
              CHAINOBJ_TRANSACTION_PROOF, CHAINOBJ_PROOF_ROOT, CHAINOBJ_HEADER_REF,
              CHAINOBJ_PRIORBLOCKS, CHAINOBJ_RESERVETRANSFER, CHAINOBJ_CROSSCHAINPROOF]
    have hloop : ∀ (l : List (ChainObj BHP PTP U256 BHPr PBC RTr)) b rest',
        wfObjList l = true → serializeChainObjects C l = some b → listDepth l ≤ fuel →
        readObjsF (readElemF C (deserCCP C fuel)) l.length (b ++ rest') =
          (l, rest', false) := by
      intro l
      induction l with
      | nil =>
        intro b rest' _ hser _
        rw [serializeChainObjects, Option.some.injEq] at hser
        subst hser
        simp [readObjsF]
      | cons o os ihl =>
        intro b rest' hwf hser hd
        simp only [wfObjList, Bool.and_eq_true] at hwf
        obtain ⟨hwo, hwos⟩ := hwf
        rw [serializeChainObjects] at hser
        cases h1 : dehydrateChainObject C o with
        | none => rw [h1] at hser; simp at hser
        | some eb =>
          cases h2 : serializeChainObjects C os with
          | none => rw [h1, h2] at hser; simp at hser
          | some ebs =>
            rw [h1, h2, Option.some.injEq] at hser
            subst hser
            have hdo : objDepth o ≤ fuel := by
              have : listDepth (o :: os) = max (objDepth o) (listDepth os) := by
                simp [listDepth]
              omega
            have hdos : listDepth os ≤ fuel := by
              have : listDepth (o :: os) = max (objDepth o) (listDepth os) := by
                simp [listDepth]
              omega
            have he := helem o eb (ebs ++ rest') hwo h1 hdo
            rw [List.append_assoc, List.length_cons]
            simp only [readObjsF, he, ihl ebs rest' hwos h2 hdos]
    intro v objs bytes rest hwf hser hd
    simp only [wfCCP, Bool.and_eq_true, decide_eq_true_eq] at hwf
    obtain ⟨hv, hlen, hwl⟩ := hwf
    rw [serializeCCP] at hser
    cases hbody : serializeChainObjects C objs with
    | none => rw [hbody] at hser; simp at hser
    | some body =>
      rw [hbody, Option.map_some', Option.some.injEq] at hser
      subst hser
      have hv32 : v < 256 ^ 4 := by
        have : (256:Nat) ^ 4 = 2 ^ 32 := by norm_num
        omega
      have hro := hloop objs body rest hwl hbody (by omega)
      rw [List.append_assoc, List.append_assoc]
      simp only [deserCCP, readLE_leBytes_small 4 v hv32, readVarInt_writeVarInt,
        toCount_small _ hlen, hro]
      simp

theorem unitCodecs_faithful : CodecsFaithful unitCodecs := by
  refine ⟨?_, ?_, ?_, ?_, ?_, ?_⟩ <;> (intro x r; cases x; rfl)

/-- C1: `IsValid()` does not check the version range at all — the
disjunction is a tautology on unsigned integers, so it returns `true`
for every version, including `VERSION_INVALID = 0` and any value
greater than `VERSION_LAST`, contradicting the claimed iff. -/
theorem isValid_tautology :
    CCrossChainProofIsValid VERSION_INVALID = true ∧
      CCrossChainProofIsValid (VERSION_LAST + 1) = true ∧
      ∀ v, CCrossChainProofIsValid v = true := by
  refine ⟨rfl, rfl, fun v => ?_⟩
  simp only [CCrossChainProofIsValid, VERSION_FIRST, VERSION_LAST, Bool.or_eq_true,
    decide_eq_true_eq]
  omega

/-- C3: the tags stored by the two header append overloads are swapped
relative to the decode table.  Appending a `CBlockHeaderAndProof`
stores `CHAINOBJ_HEADER_REF`, and appending a `CBlockHeaderProof`
stores `CHAINOBJ_HEADER`; yet the decode branch for
`CHAINOBJ_HEADER_REF` reads a `CBlockHeaderProof` and the branch for
`CHAINOBJ_HEADER` reads a `CBlockHeaderAndProof` (shown on the
trivial codecs), and serializing either appended object
reinterpret-casts it through the wrong static type (modelled `none`). -/
theorem appendHeader_tags_swapped :
    (∀ (p : CCrossChainProof BHP PTP U256 BHPr PBC RTr) (x : BHP),
        (appendBlockHeaderAndProof p x).chainObjects =
          p.chainObjects ++ [ChainObj.header CHAINOBJ_HEADER_REF x]) ∧
    (∀ (p : CCrossChainProof BHP PTP U256 BHPr PBC RTr) (y : BHPr),
        (appendBlockHeaderProof p y).chainObjects =
          p.chainObjects ++ [ChainObj.headerRef CHAINOBJ_HEADER y]) ∧
    (readElemF unitCodecs (deserCCP unitCodecs 0) (leBytes 2 CHAINOBJ_HEADER_REF) =
        some (some (ChainObj.headerRef CHAINOBJ_HEADER_REF ()), [])) ∧
    (readElemF unitCodecs (deserCCP unitCodecs 0) (leBytes 2 CHAINOBJ_HEADER) =
        some (some (ChainObj.header CHAINOBJ_HEADER ()), [])) ∧
    (∀ (Cc : ChainObjCodecs BHP PTP U256 BHPr PBC RTr) (x : BHP),
        dehydrateChainObject Cc (ChainObj.header CHAINOBJ_HEADER_REF x) = none) ∧
    (∀ (Cc : ChainObjCodecs BHP PTP U256 BHPr PBC RTr) (y : BHPr),
        dehydrateChainObject Cc (ChainObj.headerRef CHAINOBJ_HEADER y) = none) := by
  refine ⟨fun p x => rfl, fun p y => rfl, rfl, rfl, fun Cc x => ?_, fun Cc y => ?_⟩
  · rw [dehydrateChainObject]
    norm_num [CHAINOBJ_HEADER, CHAINOBJ_HEADER_REF, isKnownTag]
  · rw [dehydrateChainObject]
    norm_num [CHAINOBJ_HEADER, CHAINOBJ_HEADER_REF, isKnownTag]

/-- C9: for every initial nonce, every `pastHash`/`txid`/`voutNum`,
and any hash functions, `CheckPOSEntropy` accepts the nonce that
`SetPOSEntropy` just produced from the same arguments. -/
theorem checkPOSEntropy_setPOSEntropy (H1 : Nat → Nat → Nat → Nat) (H2 : Nat → Nat)
    (nonce pastHash txid voutNum : Nat) :
    checkPOSEntropy H1 H2 (setPOSEntropy H1 H2 nonce pastHash txid voutNum)
      pastHash txid voutNum = true := by
  have harn : posEntropyArNonce H1 (setPOSEntropy H1 H2 nonce pastHash txid voutNum)
      pastHash txid voutNum = posEntropyArNonce H1 nonce pastHash txid voutNum := by
    unfold setPOSEntropy posEntropyArNonce
    generalize H2 _ % 2 ^ 128 = k
    generalize H1 pastHash txid voutNum % 2 ^ 96 = m
    omega
  unfold checkPOSEntropy
  rw [harn]
  exact beq_self_eq_true _

/-- C10: every `AddObject` call appends exactly one entry to each
vector, so after any sequence of calls starting from the default
constructor, `types.size() == hashes.size()` (both equal the number of
calls). -/
theorem addObject_parallel_vectors :
    (∀ (p : COpRetProof) (t h : Nat),
        (addObject p t h).types.length = p.types.length + 1 ∧
        (addObject p t h).hashes.length = p.hashes.length + 1) ∧
    (∀ calls : List (Nat × Nat),
        (calls.foldl (fun p c => addObject p c.1 c.2) COpRetProofDefault).types.length =
            calls.length ∧
          (calls.foldl (fun p c => addObject p c.1 c.2)
              COpRetProofDefault).hashes.length = calls.length) := by
  constructor
  · intro p t h
    simp [addObject]
  · have key : ∀ (calls : List (Nat × Nat)) (p : COpRetProof),
        (calls.foldl (fun p c => addObject p c.1 c.2) p).types.length =
            p.types.length + calls.length ∧
          (calls.foldl (fun p c => addObject p c.1 c.2) p).hashes.length =
            p.hashes.length + calls.length := by
      intro calls
      induction calls with
      | nil => intro p; simp
      | cons c cs ih =>
        intro p
        simp only [List.foldl_cons, List.length_cons]
        have h := ih (addObject p c.1 c.2)
        constructor
        · rw [h.1]
          simp only [addObject, List.length_append, List.length_cons, List.length_nil]
          omega
        · rw [h.2]
          simp only [addObject, List.length_append, List.length_cons, List.length_nil]
          omega
    intro calls
    have h := key calls COpRetProofDefault
    simpa [COpRetProofDefault] using h

/-- C2: for every supported tag and constructible payload instance —
including containers with empty object sequences and containers nested
inside containers — decoding the bytes produced by encoding a
well-formed container yields a structurally equal container: same
tags, same payload fields, same element order (for any faithful
payload codecs and any fuel exceeding the nesting depth). -/
theorem chainObjects_decode_encode
    (C : ChainObjCodecs BHP PTP U256 BHPr PBC RTr) (hC : CodecsFaithful C)
    (version : Nat) (objs : List (ChainObj BHP PTP U256 BHPr PBC RTr))
    (bytes rest : List Nat) (fuel : Nat)
    (hwf : wfCCP version objs = true)
    (henc : serializeCCP C version objs = some bytes)
    (hfuel : listDepth objs < fuel) :
    deserCCP C fuel (bytes ++ rest) = some ((version, objs), rest) :=
  deserCCP_serializeCCP C hC fuel version objs bytes rest hwf henc hfuel

/-- C2 witness: the round-trip theorem applied to a concrete container
holding an empty nested container and a proof root. -/
theorem chainObjects_decode_encode_witness :
    deserCCP unitCodecs 2 ([1, 0, 0, 0, 2, 8, 0, 1, 0, 0, 0, 0, 4, 0] ++ []) =
      some ((1, [ChainObj.containerObj CHAINOBJ_CROSSCHAINPROOF 1 [],
        ChainObj.proofRoot CHAINOBJ_PROOF_ROOT ()]), []) :=
  chainObjects_decode_encode unitCodecs unitCodecs_faithful 1
    [ChainObj.containerObj CHAINOBJ_CROSSCHAINPROOF 1 [],
      ChainObj.proofRoot CHAINOBJ_PROOF_ROOT ()]
    [1, 0, 0, 0, 2, 8, 0, 1, 0, 0, 0, 0, 4, 0] [] 2
    (by simp [wfCCP, wfObjList, wfObj, CHAINOBJ_CROSSCHAINPROOF, CHAINOBJ_PROOF_ROOT])
    (by simp [serializeCCP, serializeChainObjects, dehydrateChainObject, unitCodecs,
      leBytes, writeVarInt, CHAINOBJ_CROSSCHAINPROOF, CHAINOBJ_PROOF_ROOT,
      CHAINOBJ_COMPOSITEOBJECT, isKnownTag])
    (by simp [listDepth, objDepth])

/-- C4 counterexample: the stream `[1,0,0,0, 2, 4,0, 99]` declares two
elements; the first (a proof root) decodes, the second dies reading a
truncated tag.  The container decode discards the decoded proof root —
but, contrary to the claim, surfaces no error: it returns successfully
(`some`, not the `none` that models an exception reaching the caller)
with an empty container, indistinguishable from an empty proof. -/
theorem decode_error_not_surfaced :
    deserCCP unitCodecs 2 [1, 0, 0, 0, 2, 4, 0, 99] = some ((1, []), [99]) ∧
      deserCCP unitCodecs 2 [1, 0, 0, 0, 2, 4, 0, 99] ≠ none := by
  constructor
  · rfl
  · rw [show deserCCP unitCodecs 2 [1, 0, 0, 0, 2, 4, 0, 99] = some ((1, []), [99])
      from rfl]
    simp

/-- C4 amended: when decoding any element of the container raises, the
decode discards every element decoded so far — the resulting container
holds zero objects, never a partially populated sequence — but no
error is surfaced to the caller: the decode still returns normally,
the corruption being only logged. -/
theorem decode_element_failure_discards_all
    (C : ChainObjCodecs BHP PTP U256 BHPr PBC RTr) (fuel : Nat)
    (s s1 s2 : List Nat) (version n : Nat)
    (hver : readLE 4 s = some (version, s1))
    (hcnt : readVarInt s1 = some (n, s2))
    (herr : (readObjsF (readElemF C (deserCCP C fuel)) (toCount n) s2).2.2 = true) :
    deserCCP C (fuel + 1) s =
      some ((version, []),
        (readObjsF (readElemF C (deserCCP C fuel)) (toCount n) s2).2.1) := by
  simp only [deserCCP, hver, hcnt, herr]
  simp

/-- C4 amended witness: the discard-without-error behavior exercised
on the counterexample stream. -/
theorem decode_element_failure_discards_all_witness :
    deserCCP unitCodecs 2 [1, 0, 0, 0, 2, 4, 0, 99] =
      some ((1, []),
        (readObjsF (readElemF unitCodecs (deserCCP unitCodecs 1)) (toCount 2)
            [4, 0, 99]).2.1) :=
  decode_element_failure_discards_all unitCodecs 1 [1, 0, 0, 0, 2, 4, 0, 99]
    [2, 4, 0, 99] [4, 0, 99] 1 2 rfl rfl rfl

/-- C5 counterexample: the stream `[1,0,0,0, 2, 9,0, 4,0]` declares
two elements, the first bearing the unknown tag 9.  Decode silently
drops the unknown element (consuming only its 2 tag bytes), continues
from the unadjusted position, decodes the following proof root, and
reports no error — contrary to the claimed MalformedProof
propagation. -/
theorem unknown_tag_skipped_silently :
    deserCCP unitCodecs 2 [1, 0, 0, 0, 2, 9, 0, 4, 0] =
      some ((1, [ChainObj.proofRoot CHAINOBJ_PROOF_ROOT ()]), []) := rfl

/-- C5 amended: an element whose 2-byte tag is not one of the known
chain-object tags is treated as benign: the loop consumes exactly the
two tag bytes, stores nothing, raises no error, and decodes the next
element from the unadjusted position right after the tag (the unknown
element's payload, if any, is never skipped). -/
theorem unknown_tag_benign_continue
    (C : ChainObjCodecs BHP PTP U256 BHPr PBC RTr)
    (dcp : List Nat →
      Option ((Nat × List (ChainObj BHP PTP U256 BHPr PBC RTr)) × List Nat))
    (t k : Nat) (rest : List Nat)
    (h16 : t < 2 ^ 16) (hunk : ¬(1 ≤ t ∧ t ≤ 8)) :
    readElemF C dcp (leBytes 2 t ++ rest) = some (none, rest) ∧
      readObjsF (readElemF C dcp) (k + 1) (leBytes 2 t ++ rest) =
        readObjsF (readElemF C dcp) k rest := by
  have h256 : t < 256 ^ 2 := by
    have : (256:Nat) ^ 2 = 2 ^ 16 := by norm_num
    omega
  have he : readElemF C dcp (leBytes 2 t ++ rest) = some (none, rest) := by
    simp only [readElemF, readLE_leBytes_small 2 t h256]
    rw [if_neg (by simp only [CHAINOBJ_HEADER]; omega),
      if_neg (by simp only [CHAINOBJ_TRANSACTION_PROOF]; omega),
      if_neg (by simp only [CHAINOBJ_PROOF_ROOT]; omega),
      if_neg (by simp only [CHAINOBJ_HEADER_REF]; omega),
      if_neg (by simp only [CHAINOBJ_PRIORBLOCKS]; omega),
      if_neg (by simp only [CHAINOBJ_RESERVETRANSFER]; omega),
      if_neg (by simp only [CHAINOBJ_CROSSCHAINPROOF]; omega),
      if_neg (by simp only [CHAINOBJ_COMPOSITEOBJECT]; omega)]
  refine ⟨he, ?_⟩
  simp only [readObjsF, he]

/-- C5 amended witness: unknown tag 9 skipped, loop continuing on the
very next bytes. -/
theorem unknown_tag_benign_continue_witness :
    readElemF unitCodecs (deserCCP unitCodecs 1) (leBytes 2 9 ++ [4, 0]) =
        some (none, [4, 0]) ∧
      readObjsF (readElemF unitCodecs (deserCCP unitCodecs 1)) 1
          (leBytes 2 9 ++ [4, 0]) =
        readObjsF (readElemF unitCodecs (deserCCP unitCodecs 1)) 0 [4, 0] :=
  unknown_tag_benign_continue unitCodecs (deserCCP unitCodecs 1) 9 0 [4, 0]
    (by norm_num) (by omega)

/-- C6: copying a decodable container via encode-then-decode
reproduces it exactly, and re-encoding the copy yields bytes identical
to encoding the original. -/
theorem copy_reencode_identical (C : ChainObjCodecs BHP PTP U256 BHPr PBC RTr)
    (hC : CodecsFaithful C) (fuel version : Nat)
    (objs : List (ChainObj BHP PTP U256 BHPr PBC RTr)) (bytes : List Nat)
    (hwf : wfCCP version objs = true)
    (henc : serializeCCP C version objs = some bytes)
    (hfuel : listDepth objs < fuel) :
    copyCCP C fuel version objs = some (version, objs) ∧
      (copyCCP C fuel version objs).bind (fun p => serializeCCP C p.1 p.2) =
        some bytes := by
  have hdec := deserCCP_serializeCCP C hC fuel version objs bytes [] hwf henc hfuel
  rw [List.append_nil] at hdec
  have hcopy : copyCCP C fuel version objs = some (version, objs) := by
    simp [copyCCP, henc, hdec]
  refine ⟨hcopy, ?_⟩
  rw [hcopy]
  simpa using henc

/-- C6 witness: copy fidelity on a concrete one-element container. -/
theorem copy_reencode_identical_witness :
    copyCCP unitCodecs 1 1 [ChainObj.proofRoot CHAINOBJ_PROOF_ROOT ()] =
        some (1, [ChainObj.proofRoot CHAINOBJ_PROOF_ROOT ()]) ∧
      (copyCCP unitCodecs 1 1 [ChainObj.proofRoot CHAINOBJ_PROOF_ROOT ()]).bind
          (fun p => serializeCCP unitCodecs p.1 p.2) =
        some [1, 0, 0, 0, 1, 4, 0] :=
  copy_reencode_identical unitCodecs unitCodecs_faithful 1 1
    [ChainObj.proofRoot CHAINOBJ_PROOF_ROOT ()] [1, 0, 0, 0, 1, 4, 0]
    (by simp [wfCCP, wfObjList, wfObj, CHAINOBJ_PROOF_ROOT])
    (by simp [serializeCCP, serializeChainObjects, dehydrateChainObject, unitCodecs,
      leBytes, writeVarInt, CHAINOBJ_PROOF_ROOT, isKnownTag])
    (by simp [listDepth, objDepth])

/-- C7: two containers with identical contents, one tagged
`CHAINOBJ_COMPOSITEOBJECT` and one `CHAINOBJ_CROSSCHAINPROOF`,
serialize to byte-identical payloads after the differing 2-byte tag
(`CCompositeChainObject`'s write path is exactly the
`CCrossChainProof` write path). -/
theorem composite_payload_bytes_identical
    (C : ChainObjCodecs BHP PTP U256 BHPr PBC RTr) (version : Nat)
    (objs : List (ChainObj BHP PTP U256 BHPr PBC RTr)) (bytes : List Nat)
    (henc : serializeCCP C version objs = some bytes) :
    dehydrateChainObject C
        (ChainObj.containerObj CHAINOBJ_COMPOSITEOBJECT version objs) =
        some (leBytes 2 CHAINOBJ_COMPOSITEOBJECT ++ bytes) ∧
      dehydrateChainObject C
          (ChainObj.containerObj CHAINOBJ_CROSSCHAINPROOF version objs) =
          some (leBytes 2 CHAINOBJ_CROSSCHAINPROOF ++ bytes) ∧
      serializeCComposite C version objs = serializeCCP C version objs := by
  rw [serializeCCP] at henc
  cases hbody : serializeChainObjects C objs with
  | none => rw [hbody] at henc; simp at henc
  | some body =>
    rw [hbody, Option.map_some', Option.some.injEq] at henc
    refine ⟨?_, ?_, rfl⟩
    · rw [dehydrateChainObject, if_pos (Or.inr rfl), hbody, Option.map_some', ← henc]
    · rw [dehydrateChainObject, if_pos (Or.inl rfl), hbody, Option.map_some', ← henc]

/-- C7 witness: composite/cross-chain tagging of the empty container. -/
theorem composite_payload_bytes_identical_witness :
    dehydrateChainObject unitCodecs
        (ChainObj.containerObj CHAINOBJ_COMPOSITEOBJECT 1 []) =
        some (leBytes 2 CHAINOBJ_COMPOSITEOBJECT ++ [1, 0, 0, 0, 0]) ∧
      dehydrateChainObject unitCodecs
          (ChainObj.containerObj CHAINOBJ_CROSSCHAINPROOF 1 []) =
          some (leBytes 2 CHAINOBJ_CROSSCHAINPROOF ++ [1, 0, 0, 0, 0]) ∧
      serializeCComposite unitCodecs 1 [] = serializeCCP unitCodecs 1 [] :=
  composite_payload_bytes_identical unitCodecs 1 [] [1, 0, 0, 0, 0]
    (by simp [serializeCCP, serializeChainObjects, leBytes, writeVarInt])

theorem sortedByTarget_head_le (a : Nat × Nat) (m : List (Nat × Nat))
    (h : sortedByTarget (a :: m) = true) : ∀ p ∈ a :: m, a.1 ≤ p.1 := by
  induction m generalizing a with
  | nil =>
    intro p hp
    rw [List.mem_singleton] at hp
    subst hp
    exact le_refl _
  | cons b r ih =>
    intro p hp
    simp only [sortedByTarget, Bool.and_eq_true, decide_eq_true_eq] at h
    rcases List.mem_cons.mp hp with hpa | hp'
    · subst hpa
      exact le_refl _
    · exact le_trans (le_of_lt h.1) (ih b h.2 p hp')

/-- C8: `LowestTarget` returns the zero sentinel on an empty registry
and the numerically smallest registered target of any sorted index
(it is a lower bound and is attained); after registering targets
T1 < T2 < T3 it returns T1, and T2 once the chain owning T1 is
removed. -/
theorem lowestTarget_spec :
    (∀ m : List (Nat × Nat), sortedByTarget m = true →
      (m = [] → LowestTarget ⟨m⟩ = 0) ∧
        (∀ p ∈ m, LowestTarget ⟨m⟩ ≤ p.1) ∧
        (m ≠ [] → ∃ c, (LowestTarget ⟨m⟩, c) ∈ m)) ∧
    (∀ t1 t2 t3 c1 c2 c3 : Nat, t1 < t2 → t2 < t3 → c2 ≠ c1 → c3 ≠ c1 →
      LowestTarget ⟨targetIndexInsert t3 c3 (targetIndexInsert t2 c2
          (targetIndexInsert t1 c1 []))⟩ = t1 ∧
        LowestTarget ⟨targetIndexErase c1 (targetIndexInsert t3 c3
            (targetIndexInsert t2 c2 (targetIndexInsert t1 c1 [])))⟩ = t2) := by
  constructor
  · intro m hm
    refine ⟨fun he => by subst he; rfl, ?_, ?_⟩
    · cases m with
      | nil => intro p hp; simp at hp
      | cons a r => exact sortedByTarget_head_le a r hm
    · cases m with
      | nil => intro hne; exact absurd rfl hne
      | cons a r =>
        intro _
        exact ⟨a.2, by simp [LowestTarget]⟩
  · intro t1 t2 t3 c1 c2 c3 h12 h23 hc2 hc3
    have hbase : targetIndexInsert t1 c1 [] = [(t1, c1)] := rfl
    have e2 : targetIndexInsert t2 c2 [(t1, c1)] = [(t1, c1), (t2, c2)] := by
      simp [targetIndexInsert, show ¬ t2 < t1 by omega, show ¬ t2 = t1 by omega]
    have e3 : targetIndexInsert t3 c3 [(t1, c1), (t2, c2)] =
        [(t1, c1), (t2, c2), (t3, c3)] := by
      simp [targetIndexInsert, show ¬ t3 < t1 by omega, show ¬ t3 = t1 by omega,
        show ¬ t3 < t2 by omega, show ¬ t3 = t2 by omega]
    have e4 : targetIndexErase c1 [(t1, c1), (t2, c2), (t3, c3)] =
        [(t2, c2), (t3, c3)] := by
      simp [targetIndexErase, hc2, hc3]
    rw [hbase, e2, e3]
    exact ⟨rfl, by rw [e4]; rfl⟩

/-- C8 witness: the registry scenario with targets 1 < 2 < 3 owned by
chains 10, 11, 12. -/
theorem lowestTarget_spec_witness :
    LowestTarget ⟨[]⟩ = 0 ∧ LowestTarget ⟨[(3, 7), (5, 9)]⟩ ≤ 3 ∧
      LowestTarget ⟨targetIndexInsert 3 12 (targetIndexInsert 2 11
          (targetIndexInsert 1 10 []))⟩ = 1 ∧
      LowestTarget ⟨targetIndexErase 10 (targetIndexInsert 3 12
          (targetIndexInsert 2 11 (targetIndexInsert 1 10 [])))⟩ = 2 := by
  refine ⟨(lowestTarget_spec.1 [] (by decide)).1 rfl, ?_, ?_, ?_⟩
  · exact (lowestTarget_spec.1 [(3, 7), (5, 9)] (by decide)).2.1 (3, 7) (by simp)
  · exact (lowestTarget_spec.2 1 2 3 10 11 12 (by omega) (by omega) (by omega)
      (by omega)).1
  · exact (lowestTarget_spec.2 1 2 3 10 11 12 (by omega) (by omega) (by omega)
      (by omega)).2
